import Mathlib

/-!
Verification of the BEE (Bus Encryption Engine) image-protection subsystem of
spsdk (`spsdk/image/bee.py`), shallowly embedded in Lean.

Bytes are modelled as `List Nat` (each entry a byte value), machine integers as
`Nat`, and fallible operations (which raise `SPSDKError` in the source) return
`Option`.  The AES primitives (`Crypto.Cipher.AES`) are external collaborators
of the subsystem and are passed in as explicit function parameters; the random
byte source used for block padding is likewise passed in explicitly as a list
of pad bytes.
-/

set_option maxRecDepth 8192

namespace Bee

/-! ## Byte-level helpers -/

/-- The sub-list of `d` starting at index `i` of length (at most) `n`;
models a Python slice `d[i : i + n]`. -/
def chunk (d : List Nat) (i n : Nat) : List Nat := (d.drop i).take n

/-- Little-endian 4-byte encoding of a 32-bit value; models `struct.pack("<I", n)`. -/
def u32le (n : Nat) : List Nat := [n % 256, n / 256 % 256, n / 65536 % 256, n / 16777216 % 256]

/-- Little-endian value of a byte list; models `struct.unpack("<I", l)` for 4-byte `l`. -/
def leBytes (l : List Nat) : Nat := l.foldr (fun b acc => b + 256 * acc) 0

/-- Reads a little-endian u32 at offset `i` of `d`. -/
def readU32 (d : List Nat) (i : Nat) : Nat := leBytes (chunk d i 4)

/-- Big-endian value of a byte list; models `struct.unpack(">I", l)` for 4-byte `l`. -/
def beBytes (l : List Nat) : Nat := l.foldl (fun acc b => acc * 256 + b) 0

/-- Models `struct.pack("<Ns", b)`: truncates or zero-pads `b` to exactly `n` bytes. -/
def packBytes (n : Nat) (b : List Nat) : List Nat := b.take n ++ List.replicate (n - b.length) 0

/-- Modelled from the spec: `extend_block` from `spsdk.utils.misc` is not among the
sources; per the spec sections 4.3 and 4.4 the serialized blocks are zero-padded
up to their fixed total size. -/
def extend_block (b : List Nat) (n : Nat) : List Nat := b ++ List.replicate (n - b.length) 0

theorem u32le_length (n : Nat) : (u32le n).length = 4 := rfl

theorem leBytes_u32le {n : Nat} (h : n < 4294967296) : leBytes (u32le n) = n := by
  simp [leBytes, u32le]
  omega

theorem packBytes_length (n : Nat) (b : List Nat) : (packBytes n b).length = n := by
  simp [packBytes]
  omega

theorem packBytes_of_length {n : Nat} {b : List Nat} (h : b.length = n) : packBytes n b = b := by
  simp [packBytes, h, List.take_of_length_le (le_of_eq h)]

theorem extend_block_length (b : List Nat) (n : Nat) :
    (extend_block b n).length = max b.length n := by
  simp [extend_block]
  omega

theorem chunk_eq_of (pre mid post : List Nat) {d : List Nat} {i n : Nat}
    (hd : d = pre ++ (mid ++ post)) (hi : i = pre.length) (hn : n = mid.length) :
    chunk d i n = mid := by
  subst hd hi hn
  simp [chunk, List.drop_left, List.take_left]

theorem readU32_at (pre post : List Nat) {d : List Nat} {i m : Nat}
    (hd : d = pre ++ (u32le m ++ post)) (hi : i = pre.length) (hm : m < 4294967296) :
    readU32 d i = m := by
  rw [readU32, chunk_eq_of pre (u32le m) post hd hi (u32le_length m).symm]
  exact leBytes_u32le hm

/-! ## FAC region (`BeeFacRegion`) -/

/-- BEE Factory Access Control (FAC) region: start address, length and
protection level, mirroring `BeeFacRegion` from `spsdk/image/bee.py`. -/
structure BeeFacRegion where
  start_addr : Nat
  length : Nat
  protected_level : Nat
deriving DecidableEq

/-- End address of the region (last address of the region + 1). -/
def BeeFacRegion.end_addr (f : BeeFacRegion) : Nat := f.start_addr + f.length

/-- Mirrors `BeeFacRegion.validate`: at least one of start/length aligned to
1024, protection level at most 3, end address within 32 bits and region
non-empty. -/
def BeeFacRegion.validate (f : BeeFacRegion) : Bool :=
  decide ((f.start_addr &&& 1023 = 0 ∨ f.length &&& 1023 = 0) ∧
    f.protected_level ≤ 3 ∧ f.end_addr ≤ 4294967295 ∧ f.start_addr < f.end_addr)

/-- Mirrors the `BeeFacRegion` constructor, which validates all parameters
immediately (raising `SPSDKError` on failure). -/
def BeeFacRegion.make (start length protected_level : Nat) : Option BeeFacRegion :=
  if BeeFacRegion.validate ⟨start, length, protected_level⟩ then
    some ⟨start, length, protected_level⟩
  else none

/-- The 32-byte wire image `<3I20s` of a FAC region: start, end, protection
level as little-endian u32 plus 20 reserved zero bytes. -/
def BeeFacRegion.facBytes (f : BeeFacRegion) : List Nat :=
  u32le f.start_addr ++ (u32le f.end_addr ++ (u32le f.protected_level ++ List.replicate 20 0))

/-- Mirrors `BeeFacRegion.export` (which validates, then packs). -/
def BeeFacRegion.export (f : BeeFacRegion) : Option (List Nat) :=
  if f.validate then some f.facBytes else none

/-- Mirrors `BeeFacRegion.parse`: size check, reserved-area check, then the
validating constructor with `length = end - start`. -/
def BeeFacRegion.parse (data : List Nat) (offset : Nat) : Option BeeFacRegion :=
  if data.length - offset < 32 then none
  else if chunk data (offset + 12) 20 ≠ List.replicate 20 0 then none
  else BeeFacRegion.make (readU32 data offset)
    (readU32 data (offset + 4) - readU32 data offset) (readU32 data (offset + 8))

theorem facBytes_length (f : BeeFacRegion) : f.facBytes.length = 32 := by
  simp [BeeFacRegion.facBytes, u32le]

theorem fac_validate_bounds {f : BeeFacRegion} (h : f.validate = true) :
    f.start_addr < 4294967296 ∧ f.end_addr < 4294967296 ∧
    f.protected_level < 4294967296 ∧ f.start_addr < f.end_addr := by
  simp only [BeeFacRegion.validate, decide_eq_true_eq] at h
  obtain ⟨-, h2, h3, h4⟩ := h
  omega

/-- Parsing a serialized FAC region embedded at any position round-trips. -/
theorem fac_parse_at (pre post : List Nat) (f : BeeFacRegion) (hv : f.validate = true) :
    BeeFacRegion.parse (pre ++ (f.facBytes ++ post)) pre.length = some f := by
  obtain ⟨hb1, hb2, hb3, hb4⟩ := fac_validate_bounds hv
  have hea : f.end_addr = f.start_addr + f.length := rfl
  have hs : readU32 (pre ++ (f.facBytes ++ post)) pre.length = f.start_addr :=
    readU32_at pre
      (u32le f.end_addr ++ (u32le f.protected_level ++ (List.replicate 20 0 ++ post)))
      (by simp [BeeFacRegion.facBytes]) rfl hb1
  have he : readU32 (pre ++ (f.facBytes ++ post)) (pre.length + 4) = f.end_addr :=
    readU32_at (pre ++ u32le f.start_addr)
      (u32le f.protected_level ++ (List.replicate 20 0 ++ post))
      (by simp [BeeFacRegion.facBytes]) (by simp [u32le]) hb2
  have hp : readU32 (pre ++ (f.facBytes ++ post)) (pre.length + 8) = f.protected_level :=
    readU32_at (pre ++ u32le f.start_addr ++ u32le f.end_addr)
      (List.replicate 20 0 ++ post)
      (by simp [BeeFacRegion.facBytes]) (by simp [u32le]) hb3
  have hr : chunk (pre ++ (f.facBytes ++ post)) (pre.length + 12) 20 = List.replicate 20 0 :=
    chunk_eq_of (pre ++ u32le f.start_addr ++ u32le f.end_addr ++ u32le f.protected_level)
      (List.replicate 20 0) post
      (by simp [BeeFacRegion.facBytes]) (by simp [u32le]) (by simp)
  have hlen : (pre ++ (f.facBytes ++ post)).length - pre.length = 32 + post.length := by
    simp [facBytes_length]
  rw [BeeFacRegion.parse, hlen, if_neg (by omega), if_neg (by simp [hr]), hs, he, hp, hea]
  have hll : f.start_addr + f.length - f.start_addr = f.length := by omega
  rw [hll]
  cases f
  simp only [BeeFacRegion.make]
  rw [if_pos hv]

/-! ## Protect region block (`BeeProtectRegionBlock`) -/

/-- BEE protect region block (PRDB), mirroring `BeeProtectRegionBlock`.
`start_addr`/`end_addr` model the `_start_addr`/`_end_addr` attributes, `mode`
the integer value of the AES-mode enum (`ECB = 0`, `CTR = 1`). -/
structure BeeProtectRegionBlock where
  start_addr : Nat
  end_addr : Nat
  mode : Nat
  lock_options : Nat
  counter : List Nat
  fac_regions : List BeeFacRegion
deriving DecidableEq

/-- Low tag of the PRDB header. -/
def TAGL : Nat := 0x5F474154

/-- High tag of the PRDB header. -/
def TAGH : Nat := 0x52444845

/-- Format version of the PRDB header. -/
def VERSION : Nat := 0x56010000

/-- Number of FAC regions. -/
def BeeProtectRegionBlock.fac_count (p : BeeProtectRegionBlock) : Nat := p.fac_regions.length

/-- Mirrors `BeeProtectRegionBlock.update`: recomputes the start and end address
of the encryption region from the FAC regions. -/
def BeeProtectRegionBlock.update (p : BeeProtectRegionBlock) : BeeProtectRegionBlock :=
  { p with
    start_addr :=
      p.fac_regions.foldl (fun m f => min m f.start_addr)
        (if p.fac_regions.isEmpty then 0 else 4294967295),
    end_addr := p.fac_regions.foldl (fun m f => max m f.end_addr) 0 }

/-- Mirrors `BeeProtectRegionBlock.add_fac`: appends a FAC region and updates. -/
def BeeProtectRegionBlock.add_fac (p : BeeProtectRegionBlock) (f : BeeFacRegion) :
    BeeProtectRegionBlock :=
  BeeProtectRegionBlock.update { p with fac_regions := p.fac_regions ++ [f] }

/-- Mirrors `BeeProtectRegionBlock.validate`: address sanity, CTR mode only,
16-byte counter whose last four bytes are zero, 1 to 4 FAC regions, all valid. -/
def BeeProtectRegionBlock.validate (p : BeeProtectRegionBlock) : Bool :=
  decide (p.start_addr ≤ 4294967295 ∧ p.start_addr ≤ p.end_addr ∧ p.end_addr ≤ 4294967295 ∧
    p.mode = 1 ∧ p.counter.length = 16 ∧ p.counter.drop 12 = [0, 0, 0, 0] ∧
    1 ≤ p.fac_count ∧ p.fac_count ≤ 4) && p.fac_regions.all BeeFacRegion.validate

/-- The fixed 80-byte header part of the PRDB wire image `<8I16s32s`; the
counter is stored byte-reversed. -/
def BeeProtectRegionBlock.header80 (p : BeeProtectRegionBlock) : List Nat :=
  u32le TAGL ++ (u32le TAGH ++ (u32le VERSION ++ (u32le p.fac_count ++ (u32le p.start_addr ++
    (u32le p.end_addr ++ (u32le p.mode ++ (u32le p.lock_options ++
      (packBytes 16 p.counter.reverse ++ List.replicate 32 0))))))))

/-- The 256-byte PRDB wire image: header, FAC regions, zero padding. -/
def BeeProtectRegionBlock.prdbBytes (p : BeeProtectRegionBlock) : List Nat :=
  extend_block (p.header80 ++ (p.fac_regions.map BeeFacRegion.facBytes).flatten) 256

/-- Mirrors `BeeProtectRegionBlock.export`: update, validate, then pack
(struct.pack would also reject a lock-options value not fitting in 32 bits). -/
def BeeProtectRegionBlock.export (p : BeeProtectRegionBlock) : Option (List Nat) :=
  if p.update.validate && decide (p.update.lock_options < 4294967296) then
    some p.update.prdbBytes
  else none

/-- The FAC-region parsing loop of `BeeProtectRegionBlock.parse`: parses `n`
regions, adding each via `add_fac`. -/
def BeeProtectRegionBlock.parseFacs :
    Nat → List Nat → Nat → BeeProtectRegionBlock → Option BeeProtectRegionBlock
  | 0, _, _, p => some p
  | n + 1, data, offset, p =>
    match BeeFacRegion.parse data offset with
    | none => none
    | some fac => BeeProtectRegionBlock.parseFacs n data (offset + 32) (p.add_fac fac)

/-- Mirrors `BeeProtectRegionBlock.parse`: size, tag, version and reserved-area
checks, then field extraction (the counter byte-reversed back), the FAC-region
loop, and final validation. -/
def BeeProtectRegionBlock.parse (data : List Nat) (offset : Nat) :
    Option BeeProtectRegionBlock :=
  if data.length - offset < 256 then none
  else if readU32 data offset ≠ TAGL ∨ readU32 data (offset + 4) ≠ TAGH then none
  else if readU32 data (offset + 8) ≠ VERSION then none
  else if chunk data (offset + 48) 32 ≠ List.replicate 32 0 then none
  else
    match BeeProtectRegionBlock.parseFacs (readU32 data (offset + 12)) data (offset + 80)
      { start_addr := readU32 data (offset + 16), end_addr := readU32 data (offset + 20),
        mode := readU32 data (offset + 24), lock_options := readU32 data (offset + 28),
        counter := (chunk data (offset + 32) 16).reverse, fac_regions := [] } with
    | none => none
    | some q => if q.validate then some q else none

/-- Mirrors `BeeProtectRegionBlock.is_inside_region`: tests the overall span
from `start_addr` to `end_addr`, not the individual FAC regions. -/
def BeeProtectRegionBlock.is_inside_region (p : BeeProtectRegionBlock) (addr : Nat) : Bool :=
  decide (p.start_addr ≤ addr ∧ addr < p.end_addr)

/-- Modelled from the spec: the `Counter` helper of `spsdk.utils.crypto` is not
among the sources; per spec section 4.3 the AES-CTR initial counter value is the
16-byte counter with its low-order 32 bits (big-endian) replaced by
`address >> 4`. -/
def counterInit (counter : List Nat) (addr : Nat) : List Nat :=
  counter.take 12 ++ [addr / 16 / 16777216 % 256, addr / 16 / 65536 % 256,
    addr / 16 / 256 % 256, addr / 16 % 256]

/-- Modelled from the spec: `align_block_fill_random` of `spsdk.utils.misc` is
not among the sources; per spec section 4.3 the block is padded with random
bytes up to the next 16-byte boundary.  The random draw is supplied explicitly
as `pads`. -/
def align_block_fill_random (data pads : List Nat) : List Nat :=
  data ++ pads.take ((16 - data.length % 16) % 16)

/-- Mirrors `BeeProtectRegionBlock.encrypt_block`.  `aesCtrEnc` is the external
AES-CTR primitive (key, counter value, padded plaintext); `pads` is the random
draw used for padding. -/
def BeeProtectRegionBlock.encrypt_block (aesCtrEnc : List Nat → List Nat → List Nat → List Nat)
    (pads : List Nat) (p : BeeProtectRegionBlock) (key : List Nat) (start_addr : Nat)
    (data : List Nat) : Option (List Nat) :=
  if data.length > 1024 then none
  else if p.is_inside_region start_addr then
    if p.mode ≠ 1 then none
    else if key.length ≠ 16 then none
    else
      match p.fac_regions.find?
          (fun fac => decide (fac.start_addr ≤ start_addr ∧ start_addr < fac.end_addr)) with
      | some fac =>
        if start_addr + data.length > fac.end_addr then none
        else some (aesCtrEnc key (counterInit p.counter start_addr)
          (align_block_fill_random data pads))
      | none => some data
  else some data

/-! ## Key info block (`BeeKIB`) -/

/-- BEE key info block: AES key and IV protecting the PRDB, mirroring `BeeKIB`. -/
structure BeeKIB where
  kib_key : List Nat
  kib_iv : List Nat
deriving DecidableEq

/-- Mirrors `BeeKIB.validate`: key and IV must be 16 bytes. -/
def BeeKIB.validate (k : BeeKIB) : Bool :=
  decide (k.kib_key.length = 16 ∧ k.kib_iv.length = 16)

/-- The 32-byte KIB wire image `16s16s`: key followed by IV. -/
def BeeKIB.kibBytes (k : BeeKIB) : List Nat :=
  packBytes 16 k.kib_key ++ packBytes 16 k.kib_iv

/-- Mirrors `BeeKIB.export`. -/
def BeeKIB.export (k : BeeKIB) : Option (List Nat) :=
  if k.validate then some k.kibBytes else none

/-- Mirrors `BeeKIB.parse`: size check, field extraction, validation. -/
def BeeKIB.parse (data : List Nat) (offset : Nat) : Option BeeKIB :=
  if data.length - offset < 32 then none
  else if BeeKIB.validate ⟨chunk data offset 16, chunk data (offset + 16) 16⟩ then
    some ⟨chunk data offset 16, chunk data (offset + 16) 16⟩
  else none

/-! ## Region header (`BeeRegionHeader`) -/

/-- Type of the external AES-ECB primitive: key, data to ciphertext. -/
def EcbCipher : Type := List Nat → List Nat → List Nat

/-- Type of the external AES-CBC primitive: key, IV, data to ciphertext. -/
def CbcCipher : Type := List Nat → List Nat → List Nat → List Nat

/-- BEE keys-and-regions header, mirroring `BeeRegionHeader` (`_prdb`,
`_sw_key`, `_kib`). -/
structure BeeRegionHeader where
  prdb : BeeProtectRegionBlock
  sw_key : List Nat
  kib : BeeKIB
deriving DecidableEq

/-- Mirrors `BeeRegionHeader.update`: updates the sub-blocks (the KIB update is
a no-op). -/
def BeeRegionHeader.update (h : BeeRegionHeader) : BeeRegionHeader :=
  { h with prdb := h.prdb.update }

/-- Mirrors `BeeRegionHeader.validate`: both sub-blocks valid and a 16-byte
software key. -/
def BeeRegionHeader.validate (h : BeeRegionHeader) : Bool :=
  h.kib.validate && h.prdb.validate && decide (h.sw_key.length = 16)

/-- Mirrors `BeeRegionHeader.add_fac`. -/
def BeeRegionHeader.add_fac (h : BeeRegionHeader) (f : BeeFacRegion) : BeeRegionHeader :=
  { h with prdb := h.prdb.add_fac f }

/-- Mirrors the `BeeRegionHeader.fac_regions` property. -/
def BeeRegionHeader.fac_regions (h : BeeRegionHeader) : List BeeFacRegion :=
  h.prdb.fac_regions

/-- Mirrors `BeeRegionHeader.sw_key_fuses`: big-endian 4-byte words of the
software key read from the highest offset down (`range(16, 0, -4)`). -/
def BeeRegionHeader.sw_key_fuses (h : BeeRegionHeader) : List Nat :=
  [16, 12, 8, 4].map (fun pos => beBytes (chunk h.sw_key (pos - 4) 4))

/-- Mirrors `BeeRegionHeader.export`: the KIB encrypted with AES-ECB under the
software key, zero-padded to offset 0x80, then the PRDB encrypted with AES-CBC
under the KIB key/IV, zero-padded to 0x200 bytes. -/
def BeeRegionHeader.export (ecbEnc : EcbCipher) (cbcEnc : CbcCipher) (h : BeeRegionHeader) :
    Option (List Nat) :=
  if h.update.validate then
    match h.kib.export, h.prdb.export with
    | some kb, some pb =>
      some (extend_block (extend_block (ecbEnc h.sw_key kb) 128 ++
        cbcEnc h.kib.kib_key h.kib.kib_iv pb) 512)
    | _, _ => none
  else none

/-- Mirrors `BeeRegionHeader.parse`: size and key-length checks, AES-ECB
decryption of the KIB, AES-CBC decryption of the PRDB at offset 0x80, final
validation. -/
def BeeRegionHeader.parse (ecbDec : EcbCipher) (cbcDec : CbcCipher) (data : List Nat)
    (offset : Nat) (sw_key : List Nat) : Option BeeRegionHeader :=
  if data.length - offset < 512 then none
  else if sw_key.length ≠ 16 then none
  else
    match BeeKIB.parse (ecbDec sw_key (chunk data offset 32)) 0 with
    | none => none
    | some kib =>
      match BeeProtectRegionBlock.parse (cbcDec kib.kib_key kib.kib_iv
          (chunk data (offset + 128) 256)) 0 with
      | none => none
      | some prdb =>
        if BeeRegionHeader.validate ⟨prdb, sw_key, kib⟩ then some ⟨prdb, sw_key, kib⟩
        else none

/-- Mirrors `BeeRegionHeader.encrypt_block`: delegates to the PRDB with the
software key. -/
def BeeRegionHeader.encrypt_block (aesCtrEnc : List Nat → List Nat → List Nat → List Nat)
    (pads : List Nat) (h : BeeRegionHeader) (start_addr : Nat) (data : List Nat) :
    Option (List Nat) :=
  h.prdb.encrypt_block aesCtrEnc pads h.sw_key start_addr data

/-! ## Orchestration (`BeeNxp`) -/

/-- Mirrors `BeeNxp.check_overlaps`: true exactly when the start address lies
inside some FAC region already registered on any header. -/
def check_overlaps (headers : List BeeRegionHeader) (start_addr : Nat) : Bool :=
  headers.any (fun h => h.fac_regions.any
    (fun r => decide (r.start_addr ≤ start_addr ∧ start_addr < r.end_addr)))

/-- Replaces the `i`-th element of a header list by its image under `g`. -/
def modifyHeader : List BeeRegionHeader → Nat → (BeeRegionHeader → BeeRegionHeader) →
    List BeeRegionHeader
  | [], _, _ => []
  | h :: hs, 0, g => g h :: hs
  | h :: hs, n + 1, g => h :: modifyHeader hs n g

/-- The per-region step of `BeeNxp.load_from_config`: `check_overlaps` is called
with the new region's start address (raising `SPSDKOverlapError` on overlap)
before the region is added to the targeted engine's header. -/
def add_fac_checked (headers : List BeeRegionHeader) (idx : Nat) (f : BeeFacRegion) :
    Option (List BeeRegionHeader) :=
  if check_overlaps headers f.start_addr then none
  else some (modifyHeader headers idx (fun h => h.add_fac f))

/-! ## PRDB lemmas -/

theorem update_mode (p : BeeProtectRegionBlock) : p.update.mode = p.mode := rfl

theorem update_lock_options (p : BeeProtectRegionBlock) :
    p.update.lock_options = p.lock_options := rfl

theorem update_counter (p : BeeProtectRegionBlock) : p.update.counter = p.counter := rfl

theorem update_fac_regions (p : BeeProtectRegionBlock) :
    p.update.fac_regions = p.fac_regions := rfl

theorem update_update (p : BeeProtectRegionBlock) : p.update.update = p.update := rfl

theorem prdb_validate_elim {p : BeeProtectRegionBlock} (h : p.validate = true) :
    p.start_addr ≤ 4294967295 ∧ p.start_addr ≤ p.end_addr ∧ p.end_addr ≤ 4294967295 ∧
    p.mode = 1 ∧ p.counter.length = 16 ∧ p.counter.drop 12 = [0, 0, 0, 0] ∧
    1 ≤ p.fac_regions.length ∧ p.fac_regions.length ≤ 4 ∧
    ∀ f ∈ p.fac_regions, f.validate = true := by
  simp only [BeeProtectRegionBlock.validate, Bool.and_eq_true, decide_eq_true_eq,
    List.all_eq_true, BeeProtectRegionBlock.fac_count] at h
  tauto

theorem header80_length (p : BeeProtectRegionBlock) : p.header80.length = 80 := by
  simp [BeeProtectRegionBlock.header80, u32le, packBytes_length]

theorem flatten_facBytes_length (fs : List BeeFacRegion) :
    ((fs.map BeeFacRegion.facBytes).flatten).length = 32 * fs.length := by
  induction fs with
  | nil => simp
  | cons f fs ih => simp [ih, facBytes_length]; ring

theorem add_fac_start_end (p : BeeProtectRegionBlock) (s e : Nat) (f : BeeFacRegion) :
    BeeProtectRegionBlock.add_fac { p with start_addr := s, end_addr := e } f = p.add_fac f := rfl

theorem foldl_add_fac :
    ∀ (fs : List BeeFacRegion) (p : BeeProtectRegionBlock), fs ≠ [] →
    fs.foldl BeeProtectRegionBlock.add_fac p =
      BeeProtectRegionBlock.update { p with fac_regions := p.fac_regions ++ fs }
  | [], _, h => absurd rfl h
  | [f], p, _ => by simp [BeeProtectRegionBlock.add_fac]
  | f :: g :: fs, p, _ => by
    have ih := foldl_add_fac (g :: fs) (p.add_fac f) (by simp)
    rw [List.foldl_cons, ih]
    simp [BeeProtectRegionBlock.add_fac, BeeProtectRegionBlock.update]

theorem parseFacs_succ (n : Nat) (data : List Nat) (offset : Nat) (p : BeeProtectRegionBlock) :
    BeeProtectRegionBlock.parseFacs (n + 1) data offset p =
      match BeeFacRegion.parse data offset with
      | none => none
      | some fac => BeeProtectRegionBlock.parseFacs n data (offset + 32) (p.add_fac fac) := rfl

theorem parseFacs_of_layout :
    ∀ (fs : List BeeFacRegion) (pre post : List Nat) (p : BeeProtectRegionBlock),
    (∀ f ∈ fs, f.validate = true) →
    BeeProtectRegionBlock.parseFacs fs.length
      (pre ++ ((fs.map BeeFacRegion.facBytes).flatten ++ post)) pre.length p
      = some (fs.foldl BeeProtectRegionBlock.add_fac p)
  | [], pre, post, p, _ => by simp [BeeProtectRegionBlock.parseFacs]
  | f :: fs, pre, post, p, hv => by
    have hdata : pre ++ (((f :: fs).map BeeFacRegion.facBytes).flatten ++ post)
        = (pre ++ f.facBytes) ++ ((fs.map BeeFacRegion.facBytes).flatten ++ post) := by
      simp
    have hf : BeeFacRegion.parse
        ((pre ++ f.facBytes) ++ ((fs.map BeeFacRegion.facBytes).flatten ++ post))
        pre.length = some f := by
      have h := fac_parse_at pre ((fs.map BeeFacRegion.facBytes).flatten ++ post) f
        (hv f (by simp))
      simpa [List.append_assoc] using h
    have ih := parseFacs_of_layout fs (pre ++ f.facBytes) post (p.add_fac f)
      (fun g hg => hv g (by simp [hg]))
    have hoff : (pre ++ f.facBytes).length = pre.length + 32 := by simp [facBytes_length]
    rw [hoff] at ih
    rw [List.length_cons, hdata, parseFacs_succ, hf]
    rw [List.foldl_cons]
    exact ih

theorem chunk_peel_of (xs rest : List Nat) (i n : Nat) (h : xs.length ≤ i) :
    chunk (xs ++ rest) i n = chunk rest (i - xs.length) n := by
  unfold chunk
  congr 1
  rw [show i = xs.length + (i - xs.length) by omega, ← List.drop_drop, List.drop_left,
    Nat.add_sub_cancel_left]

theorem chunk_head_of {xs : List Nat} (rest : List Nat) {n : Nat} (h : xs.length = n) :
    chunk (xs ++ rest) 0 n = xs := by
  unfold chunk
  rw [List.drop_zero, List.take_left' h]

/-- Parsing the exported PRDB bytes reconstructs the (already updated) block. -/
theorem prdb_parse_bytes (p : BeeProtectRegionBlock) (hv : p.validate = true)
    (hu : p.update = p) (hl : p.lock_options < 4294967296) :
    BeeProtectRegionBlock.parse p.prdbBytes 0 = some p := by
  obtain ⟨hv1, hv2, hv3, hv4, hv5, hv6, hv7, hv8, hv9⟩ := prdb_validate_elim hv
  have hbody : (p.header80 ++ (p.fac_regions.map BeeFacRegion.facBytes).flatten).length
      = 80 + 32 * p.fac_regions.length := by
    rw [List.length_append, header80_length, flatten_facBytes_length]
  have hlen : p.prdbBytes.length = 256 := by
    rw [BeeProtectRegionBlock.prdbBytes, extend_block_length, hbody]
    omega
  have hcnt : packBytes 16 p.counter.reverse = p.counter.reverse :=
    packBytes_of_length (by simp [hv5])
  have hrev : p.counter.reverse.length = 16 := by simp [hv5]
  have hbytes : p.prdbBytes = u32le TAGL ++ (u32le TAGH ++ (u32le VERSION ++
      (u32le p.fac_count ++ (u32le p.start_addr ++ (u32le p.end_addr ++ (u32le p.mode ++
      (u32le p.lock_options ++ (p.counter.reverse ++ (List.replicate 32 0 ++
      ((p.fac_regions.map BeeFacRegion.facBytes).flatten ++
        List.replicate (256 - (80 + 32 * p.fac_regions.length)) 0)))))))))) := by
    rw [BeeProtectRegionBlock.prdbBytes, extend_block, hbody, BeeProtectRegionBlock.header80,
      hcnt]
    simp [List.append_assoc]
  have hfb : p.fac_count < 4294967296 := by
    simp only [BeeProtectRegionBlock.fac_count]
    omega
  have h0 : readU32 p.prdbBytes 0 = TAGL := by
    rw [hbytes]
    simp [readU32, chunk_head_of, u32le_length,
      leBytes_u32le (show TAGL < 4294967296 by decide)]
  have h4 : readU32 p.prdbBytes 4 = TAGH := by
    rw [hbytes]
    simp [readU32, chunk_peel_of, u32le_length, chunk_head_of,
      leBytes_u32le (show TAGH < 4294967296 by decide)]
  have h8 : readU32 p.prdbBytes 8 = VERSION := by
    rw [hbytes]
    simp [readU32, chunk_peel_of, u32le_length, chunk_head_of,
      leBytes_u32le (show VERSION < 4294967296 by decide)]
  have h12 : readU32 p.prdbBytes 12 = p.fac_count := by
    rw [hbytes]
    simp [readU32, chunk_peel_of, u32le_length, chunk_head_of, leBytes_u32le hfb]
  have h16 : readU32 p.prdbBytes 16 = p.start_addr := by
    rw [hbytes]
    simp [readU32, chunk_peel_of, u32le_length, chunk_head_of,
      leBytes_u32le (show p.start_addr < 4294967296 by omega)]
  have h20 : readU32 p.prdbBytes 20 = p.end_addr := by
    rw [hbytes]
    simp [readU32, chunk_peel_of, u32le_length, chunk_head_of,
      leBytes_u32le (show p.end_addr < 4294967296 by omega)]
  have h24 : readU32 p.prdbBytes 24 = p.mode := by
    rw [hbytes]
    simp [readU32, chunk_peel_of, u32le_length, chunk_head_of,
      leBytes_u32le (show p.mode < 4294967296 by omega)]
  have h28 : readU32 p.prdbBytes 28 = p.lock_options := by
    rw [hbytes]
    simp [readU32, chunk_peel_of, u32le_length, chunk_head_of, leBytes_u32le hl]
  have h32 : chunk p.prdbBytes 32 16 = p.counter.reverse := by
    rw [hbytes]
    simp [chunk_peel_of, u32le_length, chunk_head_of, hrev]
  have h48 : chunk p.prdbBytes 48 32 = List.replicate 32 0 := by
    rw [hbytes]
    simp only [chunk_peel_of, u32le_length, List.length_reverse, hv5, chunk_head_of,
      List.length_replicate, Nat.reduceSub, Nat.reduceLeDiff, le_refl]
  have hfacs : BeeProtectRegionBlock.parseFacs p.fac_count p.prdbBytes 80
      { start_addr := p.start_addr, end_addr := p.end_addr, mode := p.mode,
        lock_options := p.lock_options, counter := p.counter, fac_regions := [] }
      = some p := by
    have h := parseFacs_of_layout p.fac_regions p.header80
      (List.replicate (256 - (80 + 32 * p.fac_regions.length)) 0)
      { start_addr := p.start_addr, end_addr := p.end_addr, mode := p.mode,
        lock_options := p.lock_options, counter := p.counter, fac_regions := [] } hv9
    rw [header80_length] at h
    have hdata : p.header80 ++ ((p.fac_regions.map BeeFacRegion.facBytes).flatten ++
        List.replicate (256 - (80 + 32 * p.fac_regions.length)) 0) = p.prdbBytes := by
      rw [BeeProtectRegionBlock.prdbBytes, extend_block, hbody]
      simp [List.append_assoc]
    rw [hdata] at h
    show BeeProtectRegionBlock.parseFacs p.fac_regions.length p.prdbBytes 80 _ = _
    rw [h, foldl_add_fac p.fac_regions _ (by intro hx; rw [hx] at hv7; simp at hv7)]
    rw [List.nil_append]
    show some (BeeProtectRegionBlock.update p) = some p
    rw [hu]
  rw [BeeProtectRegionBlock.parse]
  simp only [Nat.zero_add, Nat.sub_zero]
  rw [hlen, if_neg (by omega), h0, h4, if_neg (by simp), h8, if_neg (by simp), h48,
    if_neg (by simp), h12, h16, h20, h24, h28, h32, List.reverse_reverse]
  rw [hfacs]
  simp [hv]

/-! ## KIB and region-header lemmas -/

theorem kib_validate_elim {k : BeeKIB} (h : k.validate = true) :
    k.kib_key.length = 16 ∧ k.kib_iv.length = 16 := by
  simpa [BeeKIB.validate] using h

theorem kibBytes_length (k : BeeKIB) : k.kibBytes.length = 32 := by
  simp [BeeKIB.kibBytes, packBytes_length]

/-- Parsing the exported KIB bytes reconstructs the block. -/
theorem kib_parse_bytes (k : BeeKIB) (hv : k.validate = true) :
    BeeKIB.parse k.kibBytes 0 = some k := by
  obtain ⟨hk, hi⟩ := kib_validate_elim hv
  have hb : k.kibBytes = k.kib_key ++ k.kib_iv := by
    rw [BeeKIB.kibBytes, packBytes_of_length hk, packBytes_of_length hi]
  have hc0 : chunk k.kibBytes 0 16 = k.kib_key := by
    rw [hb]
    exact chunk_head_of k.kib_iv hk
  have hc16 : chunk k.kibBytes 16 16 = k.kib_iv :=
    chunk_eq_of k.kib_key k.kib_iv []
      (by rw [hb, List.append_nil]) hk.symm hi.symm
  have hlen : k.kibBytes.length = 32 := kibBytes_length k
  rw [BeeKIB.parse]
  simp only [Nat.sub_zero, Nat.zero_add]
  rw [hlen, if_neg (by omega), hc0, hc16]
  cases k
  simpa using hv

theorem header_validate_elim {h : BeeRegionHeader} (hv : h.validate = true) :
    h.kib.validate = true ∧ h.prdb.validate = true ∧ h.sw_key.length = 16 := by
  simp only [BeeRegionHeader.validate, Bool.and_eq_true, decide_eq_true_eq] at hv
  tauto

/-- Parsing the exported region-header bytes reconstructs the header, provided
the external AES primitives decrypt what they encrypted and are
length-preserving on the two plaintext blocks involved. -/
theorem header_parse_bytes (ecbEnc ecbDec : EcbCipher) (cbcEnc cbcDec : CbcCipher)
    (h : BeeRegionHeader) (b : List Nat)
    (hexp : BeeRegionHeader.export ecbEnc cbcEnc h = some b)
    (hu : h.update = h)
    (hle : (ecbEnc h.sw_key h.kib.kibBytes).length = 32)
    (hlc : (cbcEnc h.kib.kib_key h.kib.kib_iv h.prdb.prdbBytes).length = 256)
    (hde : ecbDec h.sw_key (ecbEnc h.sw_key h.kib.kibBytes) = h.kib.kibBytes)
    (hdc : cbcDec h.kib.kib_key h.kib.kib_iv
      (cbcEnc h.kib.kib_key h.kib.kib_iv h.prdb.prdbBytes) = h.prdb.prdbBytes) :
    BeeRegionHeader.parse ecbDec cbcDec b 0 h.sw_key = some h := by
  have hprdbu : h.prdb.update = h.prdb := congrArg BeeRegionHeader.prdb hu
  rw [BeeRegionHeader.export, hu] at hexp
  by_cases hval : h.validate = true
  case neg => simp [hval] at hexp
  obtain ⟨hkv, hpv, hkey⟩ := header_validate_elim hval
  have hkexp : h.kib.export = some h.kib.kibBytes := by
    simp [BeeKIB.export, hkv]
  by_cases hlock : h.prdb.lock_options < 4294967296
  case neg =>
    have hguard : (h.prdb.update.validate &&
        decide (h.prdb.update.lock_options < 4294967296)) = false := by
      rw [hprdbu]
      simp [hlock]
    have hpexp : h.prdb.export = none := by
      rw [BeeProtectRegionBlock.export, hguard]
      simp
    rw [hval, if_pos rfl, hkexp, hpexp] at hexp
    simp at hexp
  have hguard : (h.prdb.update.validate &&
      decide (h.prdb.update.lock_options < 4294967296)) = true := by
    rw [hprdbu]
    simp [hpv, hlock]
  have hpexp : h.prdb.export = some h.prdb.prdbBytes := by
    rw [BeeProtectRegionBlock.export, hguard, if_pos rfl, hprdbu]
  rw [hval, if_pos rfl, hkexp, hpexp] at hexp
  have hb : b = ecbEnc h.sw_key h.kib.kibBytes ++ (List.replicate 96 0 ++
      (cbcEnc h.kib.kib_key h.kib.kib_iv h.prdb.prdbBytes ++ List.replicate 128 0)) := by
    have hb0 := (Option.some.inj hexp).symm
    rw [hb0]
    simp [extend_block, hle, hlc, List.append_assoc]
  have hblen : b.length = 512 := by
    rw [hb]
    simp [hle, hlc]
  have hc0 : chunk b 0 32 = ecbEnc h.sw_key h.kib.kibBytes := by
    rw [hb]
    exact chunk_head_of _ hle
  have hc128 : chunk b 128 256 = cbcEnc h.kib.kib_key h.kib.kib_iv h.prdb.prdbBytes := by
    rw [hb]
    rw [chunk_peel_of _ _ _ _ (by rw [hle]; all_goals omega), hle,
      chunk_peel_of _ _ _ _ (by simp), List.length_replicate]
    exact chunk_head_of _ hlc
  simp only [BeeRegionHeader.parse, Nat.sub_zero, Nat.zero_add, hblen, hkey, hc0, hde,
    hc128, hdc, kib_parse_bytes h.kib hkv, prdb_parse_bytes h.prdb hpv hprdbu hlock, hval,
    Nat.lt_irrefl, if_false, ne_eq, not_true_eq_false, if_true]

/-! ## Encryption-dispatch lemmas -/

theorem encrypt_block_no_region (aesCtrEnc : List Nat → List Nat → List Nat → List Nat)
    (pads : List Nat) (p : BeeProtectRegionBlock) (key : List Nat) (start_addr : Nat)
    (data : List Nat) (hlen : data.length ≤ 1024) (hmode : p.mode = 1)
    (hkey : key.length = 16)
    (hout : ∀ r ∈ p.fac_regions, ¬ (r.start_addr ≤ start_addr ∧ start_addr < r.end_addr)) :
    BeeProtectRegionBlock.encrypt_block aesCtrEnc pads p key start_addr data = some data := by
  rw [BeeProtectRegionBlock.encrypt_block, if_neg (by omega)]
  by_cases hin : p.is_inside_region start_addr
  · rw [if_pos hin, if_neg (by simp [hmode]), if_neg (by simp [hkey])]
    rw [List.find?_eq_none.mpr (fun r hr => by simp [hout r hr])]
  · rw [if_neg hin]

theorem encrypt_block_pads_irrelevant
    (aesCtrEnc : List Nat → List Nat → List Nat → List Nat) (pads1 pads2 : List Nat)
    (p : BeeProtectRegionBlock) (key : List Nat) (start_addr : Nat) (data : List Nat)
    (h16 : data.length % 16 = 0) :
    BeeProtectRegionBlock.encrypt_block aesCtrEnc pads1 p key start_addr data =
      BeeProtectRegionBlock.encrypt_block aesCtrEnc pads2 p key start_addr data := by
  have hpad : ∀ pads : List Nat, align_block_fill_random data pads = data := by
    intro pads
    rw [align_block_fill_random, h16]
    simp
  rw [BeeProtectRegionBlock.encrypt_block, BeeProtectRegionBlock.encrypt_block,
    hpad pads1, hpad pads2]

/-! ## Parse-invariant lemmas (derived start and end addresses) -/

theorem add_fac_update_eq (p : BeeProtectRegionBlock) (f : BeeFacRegion) :
    (p.add_fac f).update = p.add_fac f :=
  update_update _

theorem parseFacs_some_update :
    ∀ (n : Nat) (data : List Nat) (off : Nat) (p q : BeeProtectRegionBlock),
    BeeProtectRegionBlock.parseFacs n data off p = some q → q = p ∨ q.update = q
  | 0, _, _, _, _, h => Or.inl (Option.some.inj h).symm
  | n + 1, data, off, p, q, h => by
    rw [parseFacs_succ] at h
    cases hf : BeeFacRegion.parse data off with
    | none => rw [hf] at h; exact absurd h (by simp)
    | some fac =>
      rw [hf] at h
      rcases parseFacs_some_update n data (off + 32) (p.add_fac fac) q h with h1 | h2
      · exact Or.inr (by rw [h1]; exact add_fac_update_eq p fac)
      · exact Or.inr h2

/-- Every successfully parsed PRDB has at least one FAC region and carries the
derived (recomputed) start and end addresses. -/
theorem prdb_parse_update {data : List Nat} {off : Nat} {p : BeeProtectRegionBlock}
    (h : BeeProtectRegionBlock.parse data off = some p) :
    1 ≤ p.fac_regions.length ∧ p.update = p := by
  rw [BeeProtectRegionBlock.parse] at h
  split at h
  · exact absurd h (by simp)
  split at h
  · exact absurd h (by simp)
  split at h
  · exact absurd h (by simp)
  split at h
  · exact absurd h (by simp)
  split at h
  · exact absurd h (by simp)
  next q hq =>
    split at h
    case isFalse => exact absurd h (by simp)
    case isTrue hval =>
      have hqp : q = p := Option.some.inj h
      rw [← hqp]
      have hcnt := (prdb_validate_elim hval).2.2.2.2.2.2.1
      refine ⟨hcnt, ?_⟩
      rcases parseFacs_some_update _ _ _ _ _ hq with h1 | h2
      · have hnil : q.fac_regions = [] := congrArg BeeProtectRegionBlock.fac_regions h1
        rw [hnil] at hcnt
        simp at hcnt
      · exact h2

/-- Overwrites the serialized `startAddr`/`endAddr` fields (at byte offsets
16 to 23 of a PRDB encoding starting at `off`) with arbitrary u32 values. -/
def setWire (data : List Nat) (off s e : Nat) : List Nat :=
  data.take (off + 16) ++ (u32le s ++ (u32le e ++ data.drop (off + 24)))

theorem setWire_length (data : List Nat) (off s e : Nat) (h : off + 24 ≤ data.length) :
    (setWire data off s e).length = data.length := by
  simp [setWire, u32le]
  omega

theorem setWire_chunk_left (data : List Nat) (off s e i n : Nat)
    (hd : off + 24 ≤ data.length) (hi : i + n ≤ off + 16) :
    chunk (setWire data off s e) i n = chunk data i n := by
  have htl : (data.take (off + 16)).length = off + 16 := by
    rw [List.length_take]
    omega
  rw [setWire, chunk, List.drop_append_of_le_length (by omega),
    List.take_append_of_le_length (by rw [List.length_drop, htl]; omega)]
  rw [chunk, List.drop_take, List.take_take, min_eq_left (by omega)]

theorem setWire_chunk_right (data : List Nat) (off s e i n : Nat)
    (hd : off + 24 ≤ data.length) (hi : off + 24 ≤ i) :
    chunk (setWire data off s e) i n = chunk data i n := by
  have hx : (data.take (off + 16) ++ (u32le s ++ u32le e)).length = off + 24 := by
    simp [u32le]
    omega
  have hw : setWire data off s e
      = (data.take (off + 16) ++ (u32le s ++ u32le e)) ++ data.drop (off + 24) := by
    rw [setWire]
    simp [List.append_assoc]
  rw [hw, chunk_peel_of _ _ _ _ (by omega), hx, chunk, chunk, List.drop_drop]
  congr 2
  omega

theorem fac_parse_congr {d1 d2 : List Nat} {base : Nat} (hlen : d1.length = d2.length)
    (hch : ∀ i n, base ≤ i → chunk d1 i n = chunk d2 i n) (o : Nat) (ho : base ≤ o) :
    BeeFacRegion.parse d1 o = BeeFacRegion.parse d2 o := by
  rw [BeeFacRegion.parse, BeeFacRegion.parse, readU32, readU32, readU32, readU32, readU32,
    readU32, hlen, hch o 4 ho, hch (o + 4) 4 (by omega), hch (o + 8) 4 (by omega),
    hch (o + 12) 20 (by omega)]

theorem parseFacs_congr :
    ∀ (n : Nat) {d1 d2 : List Nat} {base : Nat}, d1.length = d2.length →
    (∀ i k, base ≤ i → chunk d1 i k = chunk d2 i k) →
    ∀ (o : Nat), base ≤ o → ∀ (p : BeeProtectRegionBlock),
    BeeProtectRegionBlock.parseFacs n d1 o p = BeeProtectRegionBlock.parseFacs n d2 o p
  | 0, _, _, _, _, _, _, _, _ => rfl
  | n + 1, d1, d2, base, hlen, hch, o, ho, p => by
    rw [parseFacs_succ, parseFacs_succ, fac_parse_congr hlen hch o ho]
    cases BeeFacRegion.parse d2 o with
    | none => rfl
    | some fac => exact parseFacs_congr n hlen hch (o + 32) (by omega) (p.add_fac fac)

theorem parseFacs_wire (n : Nat) (d : List Nat) (o : Nat) (s1 e1 s2 e2 mo lo : Nat)
    (ctr : List Nat) (fs : List BeeFacRegion) :
    BeeProtectRegionBlock.parseFacs (n + 1) d o ⟨s1, e1, mo, lo, ctr, fs⟩ =
      BeeProtectRegionBlock.parseFacs (n + 1) d o ⟨s2, e2, mo, lo, ctr, fs⟩ := by
  rw [parseFacs_succ, parseFacs_succ]
  cases BeeFacRegion.parse d o with
  | none => rfl
  | some fac => rfl

theorem validate_nil (s e mo lo : Nat) (ctr : List Nat) :
    BeeProtectRegionBlock.validate ⟨s, e, mo, lo, ctr, []⟩ = false := by
  simp [BeeProtectRegionBlock.validate, BeeProtectRegionBlock.fac_count]

/-- The serialized `startAddr`/`endAddr` fields are ignored by the PRDB parser:
overwriting them with arbitrary values yields the identical parse result. -/
theorem prdb_parse_setWire (data : List Nat) (off s e : Nat) (hof : off + 24 ≤ data.length) :
    BeeProtectRegionBlock.parse (setWire data off s e) off
      = BeeProtectRegionBlock.parse data off := by
  have hlen := setWire_length data off s e hof
  have hl : ∀ i n, i + n ≤ off + 16 → chunk (setWire data off s e) i n = chunk data i n :=
    fun i n hi => setWire_chunk_left data off s e i n hof hi
  have hr : ∀ i n, off + 24 ≤ i → chunk (setWire data off s e) i n = chunk data i n :=
    fun i n hi => setWire_chunk_right data off s e i n hof hi
  rw [BeeProtectRegionBlock.parse, BeeProtectRegionBlock.parse]
  simp only [readU32]
  rw [hlen, hl off 4 (by omega), hl (off + 4) 4 (by omega), hl (off + 8) 4 (by omega),
    hl (off + 12) 4 (by omega), hr (off + 24) 4 (by omega), hr (off + 28) 4 (by omega),
    hr (off + 32) 16 (by omega), hr (off + 48) 32 (by omega)]
  rw [parseFacs_congr (leBytes (chunk data (off + 12) 4)) hlen hr (off + 80) (by omega)]
  generalize leBytes (chunk data (off + 12) 4) = n
  cases n with
  | zero =>
    simp only [BeeProtectRegionBlock.parseFacs, validate_nil, Bool.false_eq_true, if_false]
  | succ m =>
    rw [parseFacs_wire m data (off + 80)
      (leBytes (chunk (setWire data off s e) (off + 16) 4))
      (leBytes (chunk (setWire data off s e) (off + 20) 4))
      (leBytes (chunk data (off + 16) 4)) (leBytes (chunk data (off + 20) 4))]

/-! ## Wire-layout lemma for the region header -/

/-- The exported region header is 512 bytes: encrypted KIB at offset 0, zero
padding to 0x80, encrypted PRDB at 0x80, zero padding to 0x200. -/
theorem header_export_layout (ecbEnc : EcbCipher) (cbcEnc : CbcCipher) (h : BeeRegionHeader)
    (b : List Nat) (hexp : BeeRegionHeader.export ecbEnc cbcEnc h = some b)
    (hle : (ecbEnc h.sw_key h.kib.kibBytes).length = 32)
    (hlc : (cbcEnc h.kib.kib_key h.kib.kib_iv h.prdb.update.prdbBytes).length = 256) :
    b.length = 512 ∧
    chunk b 0 32 = ecbEnc h.sw_key h.kib.kibBytes ∧
    chunk b 32 96 = List.replicate 96 0 ∧
    chunk b 128 256 = cbcEnc h.kib.kib_key h.kib.kib_iv h.prdb.update.prdbBytes ∧
    chunk b 384 128 = List.replicate 128 0 := by
  rw [BeeRegionHeader.export] at hexp
  by_cases hval : h.update.validate = true
  case neg => simp [hval] at hexp
  have hkv : h.kib.validate = true := (header_validate_elim hval).1
  have hpv : h.prdb.update.validate = true := (header_validate_elim hval).2.1
  have hkexp : h.kib.export = some h.kib.kibBytes := by
    simp [BeeKIB.export, hkv]
  by_cases hlock : h.prdb.update.lock_options < 4294967296
  case neg =>
    have hguard : (h.prdb.update.validate &&
        decide (h.prdb.update.lock_options < 4294967296)) = false := by
      simp [hlock]
    have hpexp : h.prdb.export = none := by
      rw [BeeProtectRegionBlock.export, hguard]
      simp
    rw [hval, if_pos rfl, hkexp, hpexp] at hexp
    simp at hexp
  have hguard : (h.prdb.update.validate &&
      decide (h.prdb.update.lock_options < 4294967296)) = true := by
    simp [hpv, hlock]
  have hpexp : h.prdb.export = some h.prdb.update.prdbBytes := by
    rw [BeeProtectRegionBlock.export, hguard, if_pos rfl]
  rw [hval, if_pos rfl, hkexp, hpexp] at hexp
  have hb : b = ecbEnc h.sw_key h.kib.kibBytes ++ (List.replicate 96 0 ++
      (cbcEnc h.kib.kib_key h.kib.kib_iv h.prdb.update.prdbBytes ++
        List.replicate 128 0)) := by
    have hb0 := (Option.some.inj hexp).symm
    rw [hb0]
    simp [extend_block, hle, hlc, List.append_assoc]
  refine ⟨?_, ?_, ?_, ?_, ?_⟩
  · rw [hb]
    simp [hle, hlc]
  · rw [hb]
    exact chunk_head_of _ hle
  · rw [hb, chunk_peel_of _ _ _ _ (by rw [hle]), hle]
    exact chunk_head_of _ (List.length_replicate 96 0)
  · rw [hb, chunk_peel_of _ _ _ _ (by rw [hle]; all_goals omega), hle,
      chunk_peel_of _ _ _ _ (by simp), List.length_replicate]
    exact chunk_head_of _ hlc
  · rw [hb, chunk_peel_of _ _ _ _ (by rw [hle]; all_goals omega), hle,
      chunk_peel_of _ _ _ _ (by simp), List.length_replicate,
      chunk_peel_of _ _ _ _ (by rw [hlc]), hlc]
    exact chunk_head_of [] (List.length_replicate 128 0)

/-! ## Overlap, alignment and fuse lemmas -/

theorem check_overlaps_iff (headers : List BeeRegionHeader) (a : Nat) :
    check_overlaps headers a = true ↔
      ∃ h ∈ headers, ∃ r ∈ h.fac_regions, r.start_addr ≤ a ∧ a < r.end_addr := by
  simp [check_overlaps, List.any_eq_true]

theorem add_fac_checked_none_iff (headers : List BeeRegionHeader) (idx : Nat)
    (f : BeeFacRegion) :
    add_fac_checked headers idx f = none ↔
      ∃ h ∈ headers, ∃ r ∈ h.fac_regions,
        r.start_addr ≤ f.start_addr ∧ f.start_addr < r.end_addr := by
  rw [add_fac_checked, ← check_overlaps_iff headers f.start_addr]
  by_cases hc : check_overlaps headers f.start_addr = true
  · simp [hc]
  · simp [hc]

theorem mask1023 (n : Nat) : n &&& 1023 = n % 1024 := by
  have h := Nat.and_pow_two_sub_one_eq_mod n 10
  simpa using h

theorem make_none_iff (s l pl : Nat) (h1 : s + l ≤ 4294967295) (h2 : 0 < l) (h3 : pl ≤ 3) :
    BeeFacRegion.make s l pl = none ↔ (s % 1024 ≠ 0 ∧ l % 1024 ≠ 0) := by
  have hv : (BeeFacRegion.validate ⟨s, l, pl⟩ = true) ↔ (s % 1024 = 0 ∨ l % 1024 = 0) := by
    simp only [BeeFacRegion.validate, BeeFacRegion.end_addr, decide_eq_true_eq, mask1023]
    constructor
    · tauto
    · intro hx
      exact ⟨hx, h3, by omega, by omega⟩
  rw [BeeFacRegion.make]
  by_cases hb : BeeFacRegion.validate ⟨s, l, pl⟩ = true
  · rw [if_pos hb]
    have hd := hv.mp hb
    simp only [reduceCtorEq, false_iff]
    tauto
  · rw [if_neg hb]
    have hd : ¬ (s % 1024 = 0 ∨ l % 1024 = 0) := fun hx => hb (hv.mpr hx)
    simp only [true_iff]
    tauto

theorem sw_key_fuses_eq (h : BeeRegionHeader)
    (b0 b1 b2 b3 b4 b5 b6 b7 b8 b9 b10 b11 b12 b13 b14 b15 : Nat)
    (hk : h.sw_key = [b0, b1, b2, b3, b4, b5, b6, b7, b8, b9, b10, b11, b12, b13, b14, b15]) :
    h.sw_key_fuses = [b12 * 16777216 + b13 * 65536 + b14 * 256 + b15,
      b8 * 16777216 + b9 * 65536 + b10 * 256 + b11,
      b4 * 16777216 + b5 * 65536 + b6 * 256 + b7,
      b0 * 16777216 + b1 * 65536 + b2 * 256 + b3] := by
  rw [BeeRegionHeader.sw_key_fuses, hk]
  simp [chunk, beBytes]
  omega

/-! ## Concrete demonstration objects -/

/-- A valid demonstration FAC region `[0x1000, 0x1400)`. -/
def demoFac : BeeFacRegion := ⟨4096, 1024, 0⟩

/-- A valid demonstration counter (last four bytes zero). -/
def demoCounter : List Nat := [1, 2, 3, 4, 5, 6, 7, 8, 9, 10, 11, 12, 0, 0, 0, 0]

/-- A valid demonstration PRDB whose derived addresses are consistent. -/
def demoPrdb : BeeProtectRegionBlock := ⟨4096, 5120, 1, 7, demoCounter, [demoFac]⟩

/-- A valid demonstration KIB. -/
def demoKib : BeeKIB := ⟨List.replicate 16 170, List.replicate 16 85⟩

/-- A 16-byte demonstration software key with bytes 0x00 to 0x0F. -/
def demoKey : List Nat := [0, 1, 2, 3, 4, 5, 6, 7, 8, 9, 10, 11, 12, 13, 14, 15]

/-- A valid demonstration region header. -/
def demoHeader : BeeRegionHeader := ⟨demoPrdb, demoKey, demoKib⟩

/-- Identity instantiation of the external AES-ECB collaborator. -/
def idEcb : EcbCipher := fun _ d => d

/-- Identity instantiation of the external AES-CBC collaborator. -/
def idCbc : CbcCipher := fun _ _ d => d

/-- Identity instantiation of the external AES-CTR collaborator. -/
def idCtr : List Nat → List Nat → List Nat → List Nat := fun _ _ d => d

/-- Wire image of `demoFac`. -/
def demoFacBytes : List Nat := demoFac.facBytes

/-- Wire image of `demoKib`. -/
def demoKibBytes : List Nat := demoKib.kibBytes

/-- Wire image of `demoPrdb`. -/
def demoPrdbBytes : List Nat := demoPrdb.prdbBytes

/-- Wire image of `demoHeader` under the identity ciphers. -/
def demoHeaderBytes : List Nat := (BeeRegionHeader.export idEcb idCbc demoHeader).getD []

/-- A fresh PRDB with constructor-default addresses and no regions yet. -/
def freshPrdb : BeeProtectRegionBlock := ⟨0, 4294967295, 1, 0, demoCounter, []⟩

/-- Two fresh engine headers with no FAC regions registered. -/
def demoHeaders : List BeeRegionHeader :=
  [⟨freshPrdb, demoKey, demoKib⟩, ⟨freshPrdb, demoKey, demoKib⟩]

/-- A PRDB whose two FAC regions leave a gap `[0x400, 0x800)` inside the
overall span `[0, 0xC00)`. -/
def gapPrdb : BeeProtectRegionBlock :=
  ⟨0, 3072, 1, 0, demoCounter, [⟨0, 1024, 0⟩, ⟨2048, 1024, 0⟩]⟩

/-- A PRDB with one FAC region `[0, 0x400)`, used to exhibit the random
padding draw inside `encrypt_block`. -/
def cxPrdb : BeeProtectRegionBlock := ⟨0, 1024, 1, 0, demoCounter, [⟨0, 1024, 0⟩]⟩

/-! ## Claim theorems -/

/-- C1: Round-trip of the binary codecs: for every valid FacRegion, KIB, PRDB
and RegionHeader whose export succeeds, parsing the exported bytes
reconstructs an equal object (`parse (export x) = some x`).  For the PRDB and
the region header, `update x = x` states that the object carries its derived
addresses, which is what the in-place `update` performed by `export` in the
source guarantees; for the region header the external AES primitives are
assumed length-preserving and correctly decrypting on the blocks involved. -/
theorem spec_c1_roundtrip
    (f : BeeFacRegion) (k : BeeKIB) (p : BeeProtectRegionBlock) (h : BeeRegionHeader)
    (ecbEnc ecbDec : EcbCipher) (cbcEnc cbcDec : CbcCipher)
    (bf bk bp bh : List Nat)
    (hf : f.export = some bf)
    (hk : k.export = some bk)
    (hpu : p.update = p) (hp : p.export = some bp)
    (hhu : h.update = h) (hh : BeeRegionHeader.export ecbEnc cbcEnc h = some bh)
    (hle : (ecbEnc h.sw_key h.kib.kibBytes).length = 32)
    (hlc : (cbcEnc h.kib.kib_key h.kib.kib_iv h.prdb.prdbBytes).length = 256)
    (hde : ecbDec h.sw_key (ecbEnc h.sw_key h.kib.kibBytes) = h.kib.kibBytes)
    (hdc : cbcDec h.kib.kib_key h.kib.kib_iv
      (cbcEnc h.kib.kib_key h.kib.kib_iv h.prdb.prdbBytes) = h.prdb.prdbBytes) :
    BeeFacRegion.parse bf 0 = some f ∧
    BeeKIB.parse bk 0 = some k ∧
    BeeProtectRegionBlock.parse bp 0 = some p ∧
    BeeRegionHeader.parse ecbDec cbcDec bh 0 h.sw_key = some h := by
  refine ⟨?_, ?_, ?_, ?_⟩
  · rw [BeeFacRegion.export] at hf
    by_cases hv : f.validate = true
    · rw [if_pos hv] at hf
      obtain rfl : f.facBytes = bf := Option.some.inj hf
      have h0 := fac_parse_at [] [] f hv
      simpa using h0
    · rw [if_neg hv] at hf
      exact absurd hf (by simp)
  · rw [BeeKIB.export] at hk
    by_cases hv : k.validate = true
    · rw [if_pos hv] at hk
      obtain rfl : k.kibBytes = bk := Option.some.inj hk
      exact kib_parse_bytes k hv
    · rw [if_neg hv] at hk
      exact absurd hk (by simp)
  · rw [BeeProtectRegionBlock.export] at hp
    by_cases hg : (p.update.validate && decide (p.update.lock_options < 4294967296)) = true
    · rw [if_pos hg] at hp
      obtain rfl : p.update.prdbBytes = bp := Option.some.inj hp
      rw [hpu] at hg ⊢
      obtain ⟨hv, hlock⟩ := (Bool.and_eq_true _ _).mp hg
      exact prdb_parse_bytes p hv hpu (of_decide_eq_true hlock)
    · rw [if_neg hg] at hp
      exact absurd hp (by simp)
  · exact header_parse_bytes ecbEnc ecbDec cbcEnc cbcDec h bh hh hhu hle hlc hde hdc

/-- C1 witness: the four round-trips evaluated on the concrete demonstration
objects, with the identity instantiation of the AES collaborators. -/
theorem spec_c1_roundtrip_witness :
    BeeFacRegion.parse demoFacBytes 0 = some demoFac ∧
    BeeKIB.parse demoKibBytes 0 = some demoKib ∧
    BeeProtectRegionBlock.parse demoPrdbBytes 0 = some demoPrdb ∧
    BeeRegionHeader.parse idEcb idCbc demoHeaderBytes 0 demoHeader.sw_key = some demoHeader :=
  spec_c1_roundtrip demoFac demoKib demoPrdb demoHeader idEcb idEcb idCbc idCbc
    demoFacBytes demoKibBytes demoPrdbBytes demoHeaderBytes
    (by decide) (by decide) (by decide) (by decide) (by decide) (by decide)
    (by decide) (by decide) (by decide) (by decide)

/-- C2: pass-through outside FAC regions: for a valid PRDB (hence CTR mode)
and a 16-byte key, a block of at most 1024 bytes whose start address lies in
none of the FAC regions is returned unchanged, and a repeated call on the
result keeps returning it unchanged. -/
theorem spec_c2_passthrough (aesCtrEnc : List Nat → List Nat → List Nat → List Nat)
    (pads : List Nat) (p : BeeProtectRegionBlock) (key : List Nat) (start_addr : Nat)
    (data : List Nat) (hv : p.validate = true) (hkey : key.length = 16)
    (hlen : data.length ≤ 1024)
    (hout : ∀ r ∈ p.fac_regions, ¬ (r.start_addr ≤ start_addr ∧ start_addr < r.end_addr)) :
    BeeProtectRegionBlock.encrypt_block aesCtrEnc pads p key start_addr data = some data ∧
    (∀ d2, BeeProtectRegionBlock.encrypt_block aesCtrEnc pads p key start_addr data = some d2 →
      BeeProtectRegionBlock.encrypt_block aesCtrEnc pads p key start_addr d2 = some d2) := by
  have hmode := (prdb_validate_elim hv).2.2.2.1
  have h1 := encrypt_block_no_region aesCtrEnc pads p key start_addr data hlen hmode hkey hout
  refine ⟨h1, fun d2 hd2 => ?_⟩
  have hdd : d2 = data := by
    rw [h1] at hd2
    exact (Option.some.inj hd2).symm
  rw [hdd]
  exact h1

/-- C2 witness: the demonstration PRDB leaves address 0 outside its single
region `[0x1000, 0x1400)`, so a three-byte block there passes through. -/
theorem spec_c2_passthrough_witness :
    BeeProtectRegionBlock.encrypt_block idCtr [] demoPrdb demoKey 0 [1, 2, 3] =
      some [1, 2, 3] :=
  (spec_c2_passthrough idCtr [] demoPrdb demoKey 0 [1, 2, 3]
    (by decide) (by decide) (by decide) (by decide)).1

/-- C3: region-header wire layout: a successful export is exactly 512 bytes,
with the AES-ECB-encrypted 32-byte KIB image at offset 0, zero padding up to
offset 0x80, the AES-CBC-encrypted 256-byte PRDB image at offset 0x80, and
zero padding up to offset 0x200 (assuming the AES collaborators preserve the
lengths 32 and 256 of the two plaintext blocks, as real AES does). -/
theorem spec_c3_header_layout (ecbEnc : EcbCipher) (cbcEnc : CbcCipher)
    (h : BeeRegionHeader) (b : List Nat)
    (hexp : BeeRegionHeader.export ecbEnc cbcEnc h = some b)
    (hle : (ecbEnc h.sw_key h.kib.kibBytes).length = 32)
    (hlc : (cbcEnc h.kib.kib_key h.kib.kib_iv h.prdb.update.prdbBytes).length = 256) :
    b.length = 512 ∧
    chunk b 0 32 = ecbEnc h.sw_key h.kib.kibBytes ∧
    chunk b 32 96 = List.replicate 96 0 ∧
    chunk b 128 256 = cbcEnc h.kib.kib_key h.kib.kib_iv h.prdb.update.prdbBytes ∧
    chunk b 384 128 = List.replicate 128 0 :=
  header_export_layout ecbEnc cbcEnc h b hexp hle hlc

/-- C3 witness: the layout evaluated on the concrete demonstration header
under the identity ciphers. -/
theorem spec_c3_header_layout_witness :
    demoHeaderBytes.length = 512 ∧
    chunk demoHeaderBytes 0 32 = idEcb demoHeader.sw_key demoHeader.kib.kibBytes ∧
    chunk demoHeaderBytes 32 96 = List.replicate 96 0 ∧
    chunk demoHeaderBytes 128 256 =
      idCbc demoHeader.kib.kib_key demoHeader.kib.kib_iv demoHeader.prdb.update.prdbBytes ∧
    chunk demoHeaderBytes 384 128 = List.replicate 128 0 :=
  spec_c3_header_layout idEcb idCbc demoHeader demoHeaderBytes
    (by decide) (by decide) (by decide)

/-- C4: overlap rejection: adding a new FAC region fails (with
`SPSDKOverlapError` in the source) exactly when the new region's start
address falls inside some FAC region already registered on any engine's
header; concretely, after registering `[0x1000, 0x1400)` on engine 0, adding
a region starting at `0x1200` fails on whichever engine it targets. -/
theorem spec_c4_overlap :
    (∀ (headers : List BeeRegionHeader) (idx : Nat) (f : BeeFacRegion),
      add_fac_checked headers idx f = none ↔
        ∃ h ∈ headers, ∃ r ∈ h.fac_regions,
          r.start_addr ≤ f.start_addr ∧ f.start_addr < r.end_addr) ∧
    (∃ hs1, add_fac_checked demoHeaders 0 ⟨4096, 1024, 0⟩ = some hs1 ∧
      ∀ idx, add_fac_checked hs1 idx ⟨4608, 1024, 0⟩ = none) := by
  refine ⟨add_fac_checked_none_iff,
    ⟨modifyHeader demoHeaders 0 (fun h => h.add_fac ⟨4096, 1024, 0⟩), by decide, ?_⟩⟩
  intro idx
  rw [add_fac_checked, if_pos (by decide)]

/-- C5: FAC-region alignment rule: under the remaining invariants
(`start + length ≤ 0xFFFFFFFF`, non-empty region, protection level at most 3)
construction fails exactly when both start and length are misaligned to 1024
bytes; concretely `start = 0x1001, length = 0x1001` fails and
`start = 0x1000, length = 0x1001` succeeds. -/
theorem spec_c5_alignment :
    (∀ s l pl : Nat, s + l ≤ 4294967295 → 0 < l → pl ≤ 3 →
      (BeeFacRegion.make s l pl = none ↔ (s % 1024 ≠ 0 ∧ l % 1024 ≠ 0))) ∧
    BeeFacRegion.make 4097 4097 0 = none ∧
    BeeFacRegion.make 4096 4097 0 = some ⟨4096, 4097, 0⟩ :=
  ⟨make_none_iff, by decide, by decide⟩

/-- C5 witness: the alignment criterion evaluated at the claim's concrete
inputs. -/
theorem spec_c5_alignment_witness :
    (BeeFacRegion.make 4097 4097 0 = none ↔ (4097 % 1024 ≠ 0 ∧ 4097 % 1024 ≠ 0)) ∧
    BeeFacRegion.make 4097 4097 0 = none :=
  ⟨spec_c5_alignment.1 4097 4097 0 (by decide) (by decide) (by decide),
    spec_c5_alignment.2.1⟩

theorem prdbBytes_counter_chunk (p : BeeProtectRegionBlock) (h16 : p.counter.length = 16) :
    chunk p.prdbBytes 32 16 = p.counter.reverse := by
  have hrev : p.counter.reverse.length = 16 := by simp [h16]
  have hcnt : packBytes 16 p.counter.reverse = p.counter.reverse := packBytes_of_length hrev
  rw [BeeProtectRegionBlock.prdbBytes, extend_block, BeeProtectRegionBlock.header80, hcnt]
  simp only [List.append_assoc]
  simp [chunk_peel_of, u32le_length, chunk_head_of, hrev]

/-- C6: counter wire quirk: a successful PRDB export stores the 16-byte
counter byte-reversed at offset 32 of the 256-byte encoding, and parsing
reverses it back, so the parsed block carries the original counter. -/
theorem spec_c6_counter_quirk (p : BeeProtectRegionBlock) (b : List Nat)
    (hp : p.export = some b) :
    chunk b 32 16 = p.counter.reverse ∧
    (BeeProtectRegionBlock.parse b 0).map BeeProtectRegionBlock.counter = some p.counter := by
  rw [BeeProtectRegionBlock.export] at hp
  by_cases hg : (p.update.validate && decide (p.update.lock_options < 4294967296)) = true
  case neg =>
    rw [if_neg hg] at hp
    exact absurd hp (by simp)
  rw [if_pos hg] at hp
  obtain rfl : p.update.prdbBytes = b := Option.some.inj hp
  obtain ⟨hv, hlock⟩ := (Bool.and_eq_true _ _).mp hg
  have h16 : p.update.counter.length = 16 := (prdb_validate_elim hv).2.2.2.2.1
  constructor
  · rw [prdbBytes_counter_chunk p.update h16, update_counter]
  · rw [prdb_parse_bytes p.update hv (update_update p) (of_decide_eq_true hlock)]
    simp [update_counter]

/-- C6 witness: the counter quirk evaluated on the demonstration PRDB. -/
theorem spec_c6_counter_quirk_witness :
    chunk demoPrdbBytes 32 16 = demoPrdb.counter.reverse ∧
    (BeeProtectRegionBlock.parse demoPrdbBytes 0).map BeeProtectRegionBlock.counter =
      some demoPrdb.counter :=
  spec_c6_counter_quirk demoPrdb demoPrdbBytes (by decide)

/-- C7: fuse derivation: for a 16-byte software key, `sw_key_fuses` returns
exactly the four big-endian 4-byte words of the key taken from the highest
offset down (bytes 12 to 15 first, then 8 to 11, 4 to 7, 0 to 3). -/
theorem spec_c7_fuses (h : BeeRegionHeader)
    (b0 b1 b2 b3 b4 b5 b6 b7 b8 b9 b10 b11 b12 b13 b14 b15 : Nat)
    (hk : h.sw_key = [b0, b1, b2, b3, b4, b5, b6, b7, b8, b9, b10, b11, b12, b13, b14, b15]) :
    h.sw_key_fuses = [b12 * 16777216 + b13 * 65536 + b14 * 256 + b15,
      b8 * 16777216 + b9 * 65536 + b10 * 256 + b11,
      b4 * 16777216 + b5 * 65536 + b6 * 256 + b7,
      b0 * 16777216 + b1 * 65536 + b2 * 256 + b3] ∧
    h.sw_key_fuses.length = 4 := by
  have he := sw_key_fuses_eq h b0 b1 b2 b3 b4 b5 b6 b7 b8 b9 b10 b11 b12 b13 b14 b15 hk
  exact ⟨he, by rw [he]; rfl⟩

/-- C7 witness: for the key with bytes 0x00 to 0x0F the fuse values are
0x0C0D0E0F, 0x08090A0B, 0x04050607, 0x00010203, in this order. -/
theorem spec_c7_fuses_witness :
    demoHeader.sw_key_fuses = [0x0C0D0E0F, 0x08090A0B, 0x04050607, 0x00010203] ∧
    demoHeader.sw_key_fuses.length = 4 :=
  spec_c7_fuses demoHeader 0 1 2 3 4 5 6 7 8 9 10 11 12 13 14 15 (by decide)

/-- C8 counterexample: determinism fails as claimed for `encrypt_block`: with
key and counter material fixed (and the external AES-CTR collaborator
instantiated), the output still depends on the random padding draw taken
inside the call for a block whose length is not a multiple of 16, so two
invocations on equal inputs need not produce identical outputs. -/
theorem spec_c8_counterexample :
    BeeProtectRegionBlock.encrypt_block idCtr (List.replicate 15 0) cxPrdb demoKey 0 [65] ≠
      BeeProtectRegionBlock.encrypt_block idCtr (List.replicate 15 1) cxPrdb demoKey 0 [65] := by
  decide

/-- C8 (amended): every operation is deterministic once the random padding
draw is fixed alongside the key/IV/counter material; in particular the output
of `encrypt_block` is independent of the padding draw whenever the block
length is a multiple of 16 (no padding is needed then), and `export`/`parse`
take no random input at all. -/
theorem spec_c8_determinism (aesCtrEnc : List Nat → List Nat → List Nat → List Nat)
    (pads1 pads2 : List Nat) (p : BeeProtectRegionBlock) (key : List Nat)
    (start_addr : Nat) (data : List Nat) (h16 : data.length % 16 = 0) :
    BeeProtectRegionBlock.encrypt_block aesCtrEnc pads1 p key start_addr data =
      BeeProtectRegionBlock.encrypt_block aesCtrEnc pads2 p key start_addr data :=
  encrypt_block_pads_irrelevant aesCtrEnc pads1 pads2 p key start_addr data h16

/-- C8 witness: a 16-byte in-region block encrypts identically under two
different padding draws. -/
theorem spec_c8_determinism_witness :
    BeeProtectRegionBlock.encrypt_block idCtr [7] demoPrdb demoKey 4096
        (List.replicate 16 3) =
      BeeProtectRegionBlock.encrypt_block idCtr [9] demoPrdb demoKey 4096
        (List.replicate 16 3) :=
  spec_c8_determinism idCtr [7] [9] demoPrdb demoKey 4096 (List.replicate 16 3) (by decide)

/-- C9: the region-membership test of `encrypt_block` is the overall span
between the derived start and end addresses, not membership in an individual
FAC region: at a gap address inside the span the mode and key-length checks
still run (a non-CTR mode or a key that is not 16 bytes raises an error, and
with both checks passing the block falls through unchanged), while at an
address outside the span the block is returned unchanged with no mode or key
check at all. -/
theorem spec_c9_span_membership (aesCtrEnc : List Nat → List Nat → List Nat → List Nat)
    (pads : List Nat) (p : BeeProtectRegionBlock) (key : List Nat) (start_addr : Nat)
    (data : List Nat) (hlen : data.length ≤ 1024) :
    (p.is_inside_region start_addr = true →
      (∀ r ∈ p.fac_regions, ¬ (r.start_addr ≤ start_addr ∧ start_addr < r.end_addr)) →
      (p.mode ≠ 1 ∨ key.length ≠ 16) →
      BeeProtectRegionBlock.encrypt_block aesCtrEnc pads p key start_addr data = none) ∧
    (p.is_inside_region start_addr = true →
      (∀ r ∈ p.fac_regions, ¬ (r.start_addr ≤ start_addr ∧ start_addr < r.end_addr)) →
      p.mode = 1 → key.length = 16 →
      BeeProtectRegionBlock.encrypt_block aesCtrEnc pads p key start_addr data = some data) ∧
    (p.is_inside_region start_addr = false →
      BeeProtectRegionBlock.encrypt_block aesCtrEnc pads p key start_addr data = some data) := by
  refine ⟨?_, ?_, ?_⟩
  · intro hin hgap hbad
    rw [BeeProtectRegionBlock.encrypt_block, if_neg (by omega), if_pos hin]
    rcases hbad with hm | hk
    · rw [if_pos hm]
    · by_cases hm2 : p.mode ≠ 1
      · rw [if_pos hm2]
      · rw [if_neg hm2, if_pos hk]
  · intro hin hgap hmode hkey
    exact encrypt_block_no_region aesCtrEnc pads p key start_addr data hlen hmode hkey hgap
  · intro hout
    rw [BeeProtectRegionBlock.encrypt_block, if_neg (by omega), if_neg (by simp [hout])]

/-- C9 witness: on the gap PRDB, address 0x400 lies in the span but in no
region, so an empty key is rejected there, while address 0x1000 outside the
span passes through with the same bad key. -/
theorem spec_c9_span_membership_witness :
    BeeProtectRegionBlock.encrypt_block idCtr [] gapPrdb [] 1024 [5] = none ∧
    BeeProtectRegionBlock.encrypt_block idCtr [] gapPrdb [] 4096 [5] = some [5] :=
  ⟨(spec_c9_span_membership idCtr [] gapPrdb [] 1024 [5] (by decide)).1
      (by decide) (by decide) (Or.inr (by decide)),
    (spec_c9_span_membership idCtr [] gapPrdb [] 4096 [5] (by decide)).2.2 (by decide)⟩

/-- C10: the serialized `startAddr`/`endAddr` fields of a PRDB encoding are
silently discarded by `parse`: overwriting them with arbitrary values yields
the identical parse result (in particular no rejection), and every
successfully parsed PRDB has at least one FAC region and carries the derived
addresses recomputed from its regions (`p.update = p`, i.e. `start_addr` is
the minimum region start and `end_addr` the maximum region end). -/
theorem spec_c10_derived_addresses :
    (∀ (data : List Nat) (off s e : Nat), off + 24 ≤ data.length →
      BeeProtectRegionBlock.parse (setWire data off s e) off
        = BeeProtectRegionBlock.parse data off) ∧
    (∀ (data : List Nat) (off : Nat) (p : BeeProtectRegionBlock),
      BeeProtectRegionBlock.parse data off = some p →
      1 ≤ p.fac_regions.length ∧ p.update = p) :=
  ⟨fun data off s e hof => prdb_parse_setWire data off s e hof,
    fun _ _ _ h => prdb_parse_update h⟩

/-- C10 witness: overwriting the wire start/end fields of the demonstration
encoding with 7 and 9 parses identically, and the parsed demonstration PRDB
carries its derived addresses. -/
theorem spec_c10_derived_addresses_witness :
    BeeProtectRegionBlock.parse (setWire demoPrdbBytes 0 7 9) 0
      = BeeProtectRegionBlock.parse demoPrdbBytes 0 ∧
    (1 ≤ demoPrdb.fac_regions.length ∧ demoPrdb.update = demoPrdb) :=
  ⟨spec_c10_derived_addresses.1 demoPrdbBytes 0 7 9 (by decide),
    spec_c10_derived_addresses.2 demoPrdbBytes 0 demoPrdb (by decide)⟩

end Bee
